import Mathlib

/-!
Verification development for the MeerKAT pipeline planner
(`processMeerKAT/processMeerKAT.py`).

The Python source is shallowly embedded as follows.

* Python strings are `Str := List Char`; the helpers `pySplit`, `pyJoin`,
  `strIn` model `str.split(sep)`, `sep.join`, and the `in` substring test.
* Python numbers appearing in the frequency-splitting code are embedded as
  exact rationals (`ℚ`).  Python's `int(...)` truncation is `pyTrunc`.
  Binary floating point is outside the model: on values whose decimal
  expansion terminates (every value appearing in the spec's scenarios)
  the rational model agrees with Python's float arithmetic and with
  `repr`/`float` round-tripping; this boundary is noted where relevant.
* Fallible Python code returns `Except PyErr`; `PyErr` names the Python
  exception class that the corresponding expression raises.
-/

set_option allowUnsafeReducibility true
attribute [semireducible] Rat.add Rat.mul Rat.div Rat.inv Rat.sub Rat.neg Rat.blt Rat.ofScientific

/-- Python exception classes raised by the embedded code. -/
inductive PyErr where
  | attributeError
  | valueError
  | typeError
  | zeroDivisionError
  | indexError
deriving DecidableEq, Repr

/-- Model of a Python string: a list of characters. -/
abbrev Str := List Char

/-- Build a `Str` from a Lean string literal. -/
def str (s : String) : Str := s.toList

/-- Helper for `pySplit`: accumulates the current piece (reversed). -/
def pySplitAux (sep : Char) : Str → Str → List Str
  | [], acc => [acc.reverse]
  | c :: rest, acc =>
    if c = sep then acc.reverse :: pySplitAux sep rest []
    else pySplitAux sep rest (c :: acc)

/-- Python `s.split(sep)` for a one-character separator. -/
def pySplit (sep : Char) (s : Str) : List Str := pySplitAux sep s []

/-- Python `sep.join(l)` for a one-character separator. -/
def pyJoin (sep : Char) : List Str → Str
  | [] => []
  | [s] => s
  | s :: rest => s ++ sep :: pyJoin sep rest

/-- Python `pat in s` (substring containment). -/
def strIn (pat : Str) : Str → Bool
  | [] => pat.isEmpty
  | c :: rest => pat.isPrefixOf (c :: rest) || strIn pat rest

/-- Python `s.replace(SPW_PREFIX, '')` where the prefix constant is `*:`
(removal of every non-overlapping occurrence, left to right). -/
def replStar : Str → Str
  | [] => []
  | '*' :: ':' :: rest => replStar rest
  | c :: rest => c :: replStar rest

/-- Decimal digits of a natural number. -/
def natDigits (n : ℕ) : Str := Nat.toDigits 10 n

/-- Python `str` of an integer. -/
def intStr (z : ℤ) : Str := if z < 0 then '-' :: natDigits z.natAbs else natDigits z.natAbs

/-- Value of a list of decimal digit characters. -/
def digitsToNat (s : Str) : ℕ := s.foldl (fun a c => 10 * a + (c.toNat - 48)) 0

/-- Python `int(s)` restricted to the plain-digit form used by the pipeline
(no sign, no spaces, no underscores); other strings raise `ValueError`,
modelled as `none`. -/
def pyIntStr (s : Str) : Option ℤ :=
  if s ≠ [] ∧ s.all Char.isDigit then some (digitsToNat s) else none

/-- Python `float(s)` restricted to the decimal forms used by the pipeline:
`digits`, `digits.`, `digits.digits`, `.digits`.  Other strings raise
`ValueError`, modelled as `none`.  The value is the exact rational of the
decimal literal (model boundary: Python stores the nearest binary float). -/
def pyFloatStr (s : Str) : Option ℚ :=
  let ip := s.takeWhile Char.isDigit
  let rest := s.dropWhile Char.isDigit
  match rest with
  | [] => if ip = [] then none else some (digitsToNat ip)
  | '.' :: fr =>
    if fr.all Char.isDigit ∧ (ip ≠ [] ∨ fr ≠ []) then
      some ((digitsToNat ip : ℚ) + (digitsToNat fr : ℚ) / 10 ^ fr.length)
    else none
  | _ => none

/-- Python `int(x)` on a number: truncation toward zero. -/
def pyTrunc (q : ℚ) : ℤ := Int.tdiv q.num q.den

/-- Decidable equality for `Except`, used to evaluate the embedded fallible
functions on concrete inputs. -/
instance exceptDecEq {ε α : Type} [DecidableEq ε] [DecidableEq α] :
    DecidableEq (Except ε α) := fun a b =>
  match a, b with
  | .ok x, .ok y =>
    if h : x = y then .isTrue (by rw [h]) else .isFalse (by simp [h])
  | .error x, .error y =>
    if h : x = y then .isTrue (by rw [h]) else .isFalse (by simp [h])
  | .ok _, .error _ => .isFalse (by simp)
  | .error _, .ok _ => .isFalse (by simp)

/-- The `func` selected by `get_spw_bounds`: Python's `int` or `float`. -/
inductive NumKind where
  | ikind
  | fkind
deriving DecidableEq, Repr

/-- Apply the selected conversion function to a number
(`int` truncates, `float` is the identity). -/
def applyKind : NumKind → ℚ → ℚ
  | .ikind, q => (pyTrunc q : ℚ)
  | .fkind, q => q

/-- Parse a numeric string with the selected conversion function
(`int(s)` or `float(s)`). -/
def pyNum : NumKind → Str → Option ℚ
  | .ikind, s => (pyIntStr s).map fun z => (z : ℚ)
  | .fkind, s => pyFloatStr s

/-- A regex word character (`\w`), ASCII fragment. -/
def isWordChar (c : Char) : Bool := c.isAlphanum || c = '_'

/-- Model of `re.search(r'(\d+\.*\d*)(\w*)', s)`: scan for the first digit,
then greedily take digits, dots, digits (group 1) and word characters
(group 2).  `none` models `re.search` returning `None`, on which the
source's `.groups()` raises `AttributeError`. -/
def searchNum : Str → Option (Str × Str)
  | [] => none
  | c :: rest =>
    if c.isDigit then
      let ds := (c :: rest).takeWhile Char.isDigit
      let r1 := (c :: rest).dropWhile Char.isDigit
      let dots := r1.takeWhile (· = '.')
      let r2 := r1.dropWhile (· = '.')
      let ds2 := r2.takeWhile Char.isDigit
      let r3 := r2.dropWhile Char.isDigit
      some (ds ++ dots ++ ds2, r3.takeWhile isWordChar)
    else searchNum rest

/-- The constant `SPW_PREFIX = '*:'`. -/
def spwPfx : Str := str "*:"

/-- The canonical frequency unit string `MHz`. -/
def mhz : Str := str "MHz"

/-- Result of a successful `get_spw_bounds` call:
`(low, high, unit, func)`. -/
structure SpwBounds where
  low : ℚ
  high : ℚ
  unit : Str
  kind : NumKind
deriving DecidableEq, Repr

/-- Embedding of `get_spw_bounds(spw)` (processMeerKAT.py lines 1333-1367).
Returns `.ok none` when the structural shape check fails (Python `None`),
`.error` when the Python code would raise (`AttributeError` from a failed
regex match, `ValueError` from `int`/`float` on a non-numeric bound). -/
def get_spw_bounds (spw : Str) : Except PyErr (Option SpwBounds) :=
  let bounds := pySplit '~' ((pySplit ':' spw).getLastD [])
  if spw.contains ',' = false ∧ spw.contains ':' = true ∧ spw.contains '~' = true
      ∧ bounds.length = 2 ∧ bounds.getD 1 [] ≠ [] then
    match searchNum (bounds.getD 1 []) with
    | none => .error .attributeError
    | some (highStr, unit) =>
      let k1 : NumKind := if unit = [] ∨ (bounds.getD 0 []).contains '.' = false then .ikind else .fkind
      match pyNum k1 (bounds.getD 0 []) with
      | none => .error .valueError
      | some low =>
        let k2 : NumKind := if unit = [] ∨ highStr.contains '.' = false then .ikind else .fkind
        match pyNum k2 highStr with
        | none => .error .valueError
        | some high => .ok (some ⟨low, high, unit, k2⟩)
  else .ok none

/-- Count and strip the factors of `p` from `n` (fuel-based recursion;
the fuel is always instantiated with `n` itself, which bounds the number
of factors).  Used to decide whether a rational has a terminating decimal
expansion. -/
def stripCount (p : ℕ) : ℕ → ℕ → ℕ × ℕ
  | 0, n => (0, n)
  | fuel + 1, n =>
    if 2 ≤ p ∧ 0 < n ∧ n % p = 0 then
      let r := stripCount p fuel (n / p)
      (r.1 + 1, r.2)
    else (0, n)

/-- Left-pad a digit string with zeros to length `k`. -/
def padZeros (k : ℕ) (ds : Str) : Str := List.replicate (k - ds.length) '0' ++ ds

/-- Decimal rendering of a rational whose denominator is `2^a * 5^b`,
as Python `repr` prints the corresponding float (always with at least one
fractional digit, e.g. `900.0`, `192.5`). -/
def decRepr (q : ℚ) (k : ℕ) : Str :=
  let m := q.num * (10 : ℤ) ^ k / (q.den : ℤ)
  let sign : Str := if m < 0 then ['-'] else []
  let a := m.natAbs
  if k = 0 then sign ++ natDigits a ++ str ".0"
  else sign ++ natDigits (a / 10 ^ k) ++ '.' :: padZeros k (natDigits (a % 10 ^ k))

/-- Python `str(x)` for a float `x`.  When the exact rational has a
terminating decimal expansion (denominator `2^a * 5^b`) this is the exact
shortest decimal, which is what Python prints for the correspondingly
representable floats.  Otherwise the Python float is itself inexact and
outside the rational model; we emit a 17-fractional-digit truncation
(never relied upon by any theorem). -/
def floatRepr (q : ℚ) : Str :=
  let s2 := stripCount 2 q.den q.den
  let s5 := stripCount 5 s2.2 s2.2
  if s5.2 = 1 then decRepr q (max s2.1 s5.1)
  else decRepr q 17

/-- Python `'{0}'.format(v)` for the value `func(x)`: decimal string of an
`int`, `repr` of a `float`. -/
def fmtVal : NumKind → ℚ → Str
  | .ikind, q => intStr (pyTrunc q)
  | .fkind, q => floatRepr q

/-- Embedding of `linspace(lower, upper, length)` (lines 1327-1331):
`[lower + x*(upper-lower)/float(length-1) for x in range(length)]`.
For `length = 1` the Python comprehension raises `ZeroDivisionError`;
`spw_split` guards that case explicitly (see `spw_split`). -/
def linspace (lower upper : ℚ) (length : ℕ) : List ℚ :=
  (List.range length).map fun x : ℕ =>
    lower + (x : ℚ) * (upper - lower) / ((length : ℚ) - 1)

/-- The sub-range bound pairs computed by `spw_split` (lines 1404-1411):
`interval = func((high-low)/float(nspw))`, `lo = linspace(low, high-interval,
nspw)`, `hi = linspace(low+interval, high, nspw)`, and each emitted sub-range
is `(func(lo[i]), func(hi[i]))`. -/
def sub_range_vals (low high : ℚ) (k : NumKind) (nspw : ℕ) : List (ℚ × ℚ) :=
  let interval := applyKind k ((high - low) / (nspw : ℚ))
  ((linspace low (high - interval) nspw).zip (linspace (low + interval) high nspw)).map
    fun p => (applyKind k p.1, applyKind k p.2)

/-- The string `'{0}{1}~{2}{3}'.format(SPW_PREFIX, func(lo[i]), func(hi[i]),
unit)` built for one sub-range (line 1411). -/
def spw_str (unit : Str) (k : NumKind) (p : ℚ × ℚ) : Str :=
  spwPfx ++ fmtVal k p.1 ++ '~' :: fmtVal k p.2 ++ unit

/-- Inner loop of the bad-frequency check (lines 1429-1434): iterate over
`badfreqranges`, parse `SPW_PREFIX + freq`, and stop at the first bad range
that fully contains `[low, high]` (Python `break`).  A `freq` entry whose
parse returns `None` makes the subscript `[0:2]` raise `TypeError`. -/
def bad_encompassed (bad : List Str) (low high : ℚ) : Except PyErr Bool :=
  match bad with
  | [] => .ok false
  | f :: fs =>
    match get_spw_bounds (spwPfx ++ f) with
    | .error e => .error e
    | .ok none => .error .typeError
    | .ok (some b) =>
      if b.low ≤ low ∧ high ≤ b.high then .ok true
      else bad_encompassed fs low high

/-- The drop decision for a single sub-range string `s` (lines 1426-1434):
re-parse `s`, then (when the shared `unit` is `MHz` and `remove` holds)
test containment in some bad frequency range. -/
def spw_dropped (unit : Str) (remove : Bool) (bad : List Str) (s : Str) : Except PyErr Bool :=
  match get_spw_bounds s with
  | .error e => .error e
  | .ok none => .error .typeError
  | .ok (some b) =>
    if unit = mhz ∧ remove = true then bad_encompassed bad b.low b.high
    else .ok false

/-- Boolean projection of `spw_dropped` (`true` exactly on a successful
`ok true` drop decision). -/
def droppedB (unit : Str) (remove : Bool) (bad : List Str) (s : Str) : Bool :=
  match spw_dropped unit remove bad s with
  | .ok true => true
  | _ => false

/-- The `while i < nspw` pruning loop of `spw_split` (lines 1423-1439),
rendered as structural recursion over the list: each element is re-parsed;
elements completely encompassed by a bad frequency range are popped
(`SPWs.pop(i); nspw -= 1`). -/
def prune_spws (unit : Str) (remove : Bool) (bad : List Str) : List Str → Except PyErr (List Str)
  | [] => .ok []
  | s :: rest =>
    match spw_dropped unit remove bad s with
    | .error e => .error e
    | .ok bf =>
      match prune_spws unit remove bad rest with
      | .error e => .error e
      | .ok rest' => .ok (if bf then rest' else s :: rest')

/-- The observable outcome of `spw_split`: the returned `nspw`, the final
`SPWs` list, whether the parent config's `spw` entry was overwritten with
the comma-joined list (line 1442), and the per-SPW directories created and
populated with config copies (lines 1446-1456). -/
structure SplitResult where
  nspw : ℕ
  spws : List Str
  overwroteConfig : Bool
  dirs : List Str
deriving DecidableEq, Repr

/-- Embedding of `spw_split(spw, nspw, ...)` (lines 1369-1477), dropping the
arguments that only affect the contents of the per-SPW config copies
(`config`, `mem`, `MS`, `partition`, `createmms`, `fields`).

Branch 1 (single range): build `nspw` equal sub-ranges.  Python raises
`ZeroDivisionError` for `nspw = 0` (at `float(nspw)` division) and for
`nspw = 1` (inside `linspace`, at `float(length-1)` division), modelled by
the `nspw < 2` guard.  Branch 2 (comma-separated list): use the list
verbatim, reading the unit from the first element (`None[2]` raises
`TypeError`), and redefine `nspw` to the list length when they disagree.
Branch 3: log an error and `return 1` before any config overwrite or
directory creation.  Both non-returning branches then prune, overwrite
the config `spw` entry, and create one directory per surviving SPW. -/
def spw_split (spw : Str) (nspw : ℕ) (bad : List Str) (remove : Bool) :
    Except PyErr SplitResult :=
  match get_spw_bounds spw with
  | .error e => .error e
  | .ok (some b) =>
    if nspw < 2 then .error .zeroDivisionError
    else
      let SPWs := (sub_range_vals b.low b.high b.kind nspw).map (spw_str b.unit b.kind)
      match prune_spws b.unit remove bad SPWs with
      | .error e => .error e
      | .ok l => .ok ⟨l.length, l, true, l.map replStar⟩
  | .ok none =>
    if spw.contains ',' then
      let SPWs := pySplit ',' spw
      match get_spw_bounds (SPWs.headD []) with
      | .error e => .error e
      | .ok none => .error .typeError
      | .ok (some b0) =>
        match prune_spws b0.unit remove bad SPWs with
        | .error e => .error e
        | .ok l => .ok ⟨l.length, l, true, l.map replStar⟩
    else .ok ⟨1, [], false, []⟩

/-- The partitioning step of `format_args` (lines 1288-1293): `spw_split` is
invoked only when `nspw > 1`; its return value is written back as `nspw` and
the rewritten `spw` entry is the comma-joined surviving list.  Returns the
resolved `(nspw, spw)` pair of the config after the run. -/
def format_args_split (spw : Str) (nspw : ℕ) (bad : List Str) :
    Except PyErr (ℕ × Str) :=
  if 1 < nspw then
    match spw_split spw nspw bad true with
    | .error e => .error e
    | .ok r => .ok (r.nspw, if r.overwroteConfig then pyJoin ',' r.spws else spw)
  else .ok (nspw, spw)

/-- The fixed script name `selfcal_part1.sbatch` (the apply-model stage). -/
def sp1 : Str := str "selfcal_part1.sbatch"

/-- The fixed script name `selfcal_part2.sbatch` (the re-image stage). -/
def sp2 : Str := str "selfcal_part2.sbatch"

/-- Python `lst * k` for an integer `k` (negative values give `[]`). -/
def pyListMul (l : List Str) (k : ℤ) : List Str := (List.replicate k.toNat l).flatten

/-- Embedding of the self-cal unrolling hack, which appears verbatim in both
`write_master` (lines 757-769) and `write_spw_master` (lines 641-653):
when the config has a `[selfcal]` section and both `selfcal_part1.sbatch`
and `selfcal_part2.sbatch` occur in the script list, and the *first*
occurrence of part2 is directly after the *first* occurrence of part1
(`idx == scripts.index('selfcal_part1.sbatch') + 1`), splice
`['selfcal_part1.sbatch','selfcal_part2.sbatch'] * (nloops - loop - 1)`
plus one trailing `selfcal_part1.sbatch` directly after that occurrence.
Otherwise the list is returned unchanged. -/
def selfcal_unroll (hasSec : Bool) (loop nloops : ℤ) (scripts : List Str) : List Str :=
  if hasSec && scripts.contains sp1 && scripts.contains sp2 then
    let selfcal_loops := nloops - loop
    let idx := scripts.indexOf sp2
    if idx = scripts.indexOf sp1 + 1 then
      scripts.take (idx + 1) ++ pyListMul [sp1, sp2] (selfcal_loops - 1)
        ++ [sp1] ++ scripts.drop (idx + 1)
    else scripts
  else scripts

/-- The constant `CPUS_PER_NODE_LIMIT = 16` (line 41). -/
def CPUS_PER_NODE_LIMIT : ℕ := 16

/-- Embedding of the `cpus-per-task` derivation in `write_sbatch`
(lines 466-477): default 1; `int(CPUS_PER_NODE_LIMIT/tasks)` for scripts
whose name contains `tclean`, `selfcal`, `partition` or `image`; and for
`partition` scripts a polarization-dependent override (4 when `dopol` and
`4*tasks < CPUS_PER_NODE_LIMIT`; capped at 2 when not `dopol`). -/
def cpus_per_task (script : Str) (tasks : ℕ) (dopol : Bool) : ℕ :=
  let cpus :=
    if strIn (str "tclean") script || strIn (str "selfcal") script
        || strIn (str "partition") script || strIn (str "image") script then
      CPUS_PER_NODE_LIMIT / tasks
    else 1
  if strIn (str "partition") script then
    if dopol && decide (4 * tasks < CPUS_PER_NODE_LIMIT) then 4
    else if !dopol && decide (2 < cpus) then 2
    else cpus
  else cpus

/-- The script name `calc_refant.py`. -/
def crefant : Str := str "calc_refant.py"

/-- Embedding of the stage-list arrangement in `format_args`
(lines 1230-1246): for `nspw == 1` with a non-empty precal or postcal list,
drop the first `calc_refant.py` from precal when it also occurs in the core
scripts (lines 1234-1236), concatenate `precal ++ scripts ++ postcal`, and
empty the precal/postcal entries in the config; for `nspw == 1` otherwise
keep the core list; for `nspw > 1` the top level runs `precal ++ postcal`.
Returns `(scripts to emit, config precal entry, config postcal entry)`. -/
def format_args_scripts (nspw : ℕ) (precal core postcal : List Str) :
    List Str × List Str × List Str :=
  if nspw = 1 then
    if precal.isEmpty && postcal.isEmpty then (core, precal, postcal)
    else
      let precal' :=
        if precal.contains crefant && core.contains crefant then precal.erase crefant
        else precal
      (precal' ++ core ++ postcal, [], [])
  else (precal ++ postcal, precal, postcal)

/-- The condition under which `write_sbatch` emits an `#SBATCH --array`
directive (line 501): the script name contains `partition`, the `spw` config
value contains a comma, and `nspw > 1`. -/
def sbatch_is_array (script : Str) (SPWs : Str) (nspw : ℕ) : Bool :=
  strIn (str "partition") script && SPWs.contains ',' && decide (1 < nspw)

/-- A SLURM dependency expression in the emitted master scripts.
`afterokExt` is `afterok` on the externally supplied `--dependencies`
argument (no captured variable); `afterok`/`afterany` reference the job-ID
variables captured by the submissions at the listed earlier positions. -/
inductive Dep where
  | nodep
  | afterokExt
  | afterok (vars : List ℕ)
  | afterany (vars : List ℕ)
deriving DecidableEq, Repr

/-- The captured-variable positions referenced by a dependency expression. -/
def Dep.refs : Dep → List ℕ
  | .afterok v => v
  | .afterany v => v
  | _ => []

/-- One `sbatch` (or nested pipeline) submission in a master script, with
the script it submits and its dependency expression. -/
structure Submission where
  script : Str
  dep : Dep
deriving DecidableEq, Repr

/-- The submission at position `i` of the single chain written by
`write_master` (lines 771-789): the first submission uses plain `sbatch`
(`-d afterok:$Dep` when external dependencies were passed, line 773-775);
every later submission uses `sbatch -d afterok:${IDs//,/:}` where `IDs`
accumulates the IDs of all previously submitted scripts (lines 784-789). -/
def master_sub (hasDeps : Bool) (scripts : List Str) (i : ℕ) : Submission :=
  ⟨scripts.getD i [],
    if i = 0 then (if hasDeps then .afterokExt else .nodep) else .afterok (List.range i)⟩

/-- The ordered submissions of the master script written by `write_master`,
after the self-cal unrolling hack is applied to the script list. -/
def write_master_chain (hasDeps hasSec : Bool) (loop nloops : ℤ) (scripts0 : List Str) :
    List Submission :=
  let scripts := selfcal_unroll hasSec loop nloops scripts0
  (List.range scripts.length).map (master_sub hasDeps scripts)

/-- The precal submission at position `i` of `write_spw_master`
(lines 582-595): first precal script via plain `sbatch` (with
`-d afterok:$Dep` when external dependencies were passed), later ones via
`sbatch -d afterok:${allSPWIDs//,/:}` on all previously captured precal
IDs. -/
def precal_sub (hasDeps : Bool) (precal : List Str) (i : ℕ) : Submission :=
  ⟨precal.getD i [],
    if i = 0 then (if hasDeps then .afterokExt else .nodep) else .afterok (List.range i)⟩

/-- The per-SPW nested pipeline invocation (lines 620-635), occupying global
position `m + i` (`m = precal.length`): its `--dependencies` argument is the
per-task ID of the partition array job (the last precal submission) when the
last precal script contains `partition`, else all precal IDs, else the
external dependencies (which were consumed by the precal chain if one
existed, line 588). -/
def spw_sub (hasDeps : Bool) (precal : List Str) (i : ℕ) : Submission :=
  let m := precal.length
  ⟨str "SPW" ++ natDigits i,
    if !precal.isEmpty && strIn (str "partition") (precal.getLastD []) then .afterok [m - 1]
    else if 0 < m then .afterok (List.range m)
    else if hasDeps then .afterokExt else .nodep⟩

/-- The postcal submission at position `j` (global position
`m + nspw + j`), lines 655-666: the first postcal script is submitted with
`sbatch -d afterany:${IDs//,/:}` on the IDs captured from all `nspw` SPW
chains; each later one with `sbatch -d afterok:${allSPWIDs//,/:}` on the
precal IDs plus the postcal IDs captured so far. -/
def postcal_sub (precal postcal : List Str) (nspw : ℕ) (j : ℕ) : Submission :=
  let m := precal.length
  ⟨postcal.getD j [],
    if j = 0 then .afterany ((List.range nspw).map (m + ·))
    else .afterok (List.range m ++ (List.range j).map (fun t => m + nspw + t))⟩

/-- The ordered submissions of the master-master script written by
`write_spw_master` (lines 550-714): precal chain, then one nested pipeline
invocation per SPW directory, then the postcal chain; the self-cal
unrolling hack (lines 641-653) is applied to the postcal list first. -/
def write_spw_master_chain (hasDeps hasSec : Bool) (loop nloops : ℤ)
    (precal postcal0 : List Str) (nspw : ℕ) : List Submission :=
  let postcal := selfcal_unroll hasSec loop nloops postcal0
  (List.range precal.length).map (precal_sub hasDeps precal)
    ++ (List.range nspw).map (spw_sub hasDeps precal)
    ++ (List.range postcal.length).map (postcal_sub precal postcal nspw)

/-- The `if len(kwargs['scripts']) == 0 and nspw == 1` check at the end of
`format_args` (lines 1315-1317).  Returns `(an error is logged, planning is
aborted)`; the `sys.exit(1)` call at line 1317 is commented out in the
source, so the second component is always `false` and `format_args`
returns normally. -/
def format_args_nothing_to_do (scripts : List Str) (nspw : ℕ) : Bool × Bool :=
  (scripts.isEmpty && decide (nspw = 1), false)

/-- The lines `write_master` (lines 745-789) writes to the newly created
master script file, paired with the exception it raises, if any.  The file
is opened and `#!/bin/bash`, the optional verbose echo, and the
`cp config .config.tmp` line are written before the first script is
accessed; with an empty script list the subscript `scripts[0]` at line 776
then raises `IndexError`, leaving the partially written file behind. -/
def write_master_emit (verbose : Bool) (config : Str) (hasDeps hasSec : Bool)
    (loop nloops : ℤ) (scripts0 : List Str) : List Str × Option PyErr :=
  let scripts := selfcal_unroll hasSec loop nloops scripts0
  let opened := [str "#!/bin/bash"]
    ++ (if verbose then [str "echo Copying config"] else [])
    ++ [str "cp " ++ config ++ str " .config.tmp"]
    ++ (if hasDeps then [str "Dep=..."] else [])
  match scripts with
  | [] => (opened, some .indexError)
  | s0 :: rest =>
    (opened ++ (str "IDs=$(sbatch " ++ s0 ++ str ")")
        :: rest.map (fun s => str "IDs+=,$(sbatch -d afterok " ++ s ++ str ")")
      ++ [str "echo Submitted sbatch jobs with following IDs: $IDs"], none)

/-- Does an `Except` computation return without raising? -/
def isOkB {ε α : Type} : Except ε α → Bool
  | .ok _ => true
  | .error _ => false

/-- Does a `get_spw_bounds` call return a parsed bounds tuple? -/
def okSomeB {ε α : Type} : Except ε (Option α) → Bool
  | .ok (some _) => true
  | _ => false

/-! ## Concrete evaluations of the embedded functions -/

example : get_spw_bounds (str "*:900~1670MHz") = .ok (some ⟨900, 1670, mhz, .ikind⟩) := by decide

example : get_spw_bounds (str "*:900~1670.5MHz") = .ok (some ⟨900, 3341/2, mhz, .fkind⟩) := by decide

example : get_spw_bounds (str "900MHz") = .ok none := by decide

example : get_spw_bounds (str "*:abc~123MHz") = .error .valueError := by decide

example : fmtVal .fkind (385/2) = str "192.5" := by decide

example : fmtVal .fkind 900 = str "900.0" := by decide

example : fmtVal .ikind 900 = str "900" := by decide

example : sub_range_vals 900 1670 .ikind 4 = [(900, 1092), (1092, 1284), (1285, 1477), (1478, 1670)] := by decide

example : sub_range_vals 900 1670 .fkind 4 =
    [(900, 2185/2), (2185/2, 1285), (1285, 2955/2), (2955/2, 1670)] := by decide

example : spw_split (str "*:900~1670MHz") 4 [] true =
    .ok ⟨4, [str "*:900~1092MHz", str "*:1092~1284MHz", str "*:1285~1477MHz", str "*:1478~1670MHz"],
      true, [str "900~1092MHz", str "1092~1284MHz", str "1285~1477MHz", str "1478~1670MHz"]⟩ := by
  decide

example : spw_split (str "*:900~1670MHz") 4 [str "1092.5~1285MHz"] true =
    .ok ⟨4, [str "*:900~1092MHz", str "*:1092~1284MHz", str "*:1285~1477MHz", str "*:1478~1670MHz"],
      true, [str "900~1092MHz", str "1092~1284MHz", str "1285~1477MHz", str "1478~1670MHz"]⟩ := by
  decide

example : spw_split (str "*:900~1670.0MHz") 4 [str "1092.5~1285MHz"] true =
    .ok ⟨3, [str "*:900.0~1092.5MHz", str "*:1285.0~1477.5MHz", str "*:1477.5~1670.0MHz"],
      true, [str "900.0~1092.5MHz", str "1285.0~1477.5MHz", str "1477.5~1670.0MHz"]⟩ := by
  decide

example : selfcal_unroll true 1 4 [sp1, sp2] = [sp1, sp2, sp1, sp2, sp1, sp2, sp1] := by decide

example : selfcal_unroll true 1 4 [sp2, sp1, sp2] = [sp2, sp1, sp2] := by decide

example : cpus_per_task (str "partition") 3 true = 4 := by decide

example : cpus_per_task (str "partition") 3 false = 2 := by decide

example : cpus_per_task (str "quick_tclean") 8 false = 2 := by decide

example : cpus_per_task (str "setjy") 8 false = 1 := by decide

example : (write_master_emit false (str "myconfig.txt") false true 1 4 []).2 = some .indexError := by decide

example : (write_master_emit false (str "myconfig.txt") false true 1 4 []).1 ≠ [] := by decide

/-! ## Helper lemmas -/

/-- Evaluate `getD` on a mapped range at an in-bounds index. -/
theorem getD_range_map {α : Type} (f : ℕ → α) (n i : ℕ) (d : α) (h : i < n) :
    ((List.range n).map f).getD i d = f i := by
  simp [List.getD_eq_getElem?_getD, List.getElem?_map, List.getElem?_range, h]

/-- The Boolean projection `droppedB` agrees with a successful `spw_dropped` decision. -/
theorem droppedB_of_spw_dropped {unit : Str} {remove : Bool} {bad : List Str} {s : Str}
    {t : Bool} (h : spw_dropped unit remove bad s = .ok t) :
    droppedB unit remove bad s = t := by
  cases t <;> simp [droppedB, h]

/-- When every element's drop decision succeeds, the pruning loop succeeds
and returns exactly the elements whose decision was `false`. -/
theorem prune_spws_eq_filter (unit : Str) (remove : Bool) (bad : List Str)
    (spws : List Str)
    (hok : ∀ s ∈ spws, ∃ t, spw_dropped unit remove bad s = .ok t) :
    prune_spws unit remove bad spws
      = .ok (spws.filter fun s => !droppedB unit remove bad s) := by
  induction spws with
  | nil => simp [prune_spws]
  | cons s rest ih =>
    obtain ⟨t, ht⟩ := hok s (List.mem_cons_self s rest)
    have hrest := ih fun x hx => hok x (List.mem_cons_of_mem _ hx)
    have hd := droppedB_of_spw_dropped ht
    cases t <;> simp [prune_spws, ht, hrest, List.filter_cons, hd]

/-- Every survivor of a successful pruning run has the drop decision
`false`. -/
theorem prune_spws_ok_not_dropped (unit : Str) (remove : Bool) (bad : List Str) :
    ∀ (spws l' : List Str), prune_spws unit remove bad spws = .ok l' →
      ∀ s ∈ l', spw_dropped unit remove bad s = .ok false := by
  intro spws
  induction spws with
  | nil =>
    intro l' h s hs
    simp only [prune_spws, Except.ok.injEq] at h
    subst h
    simp at hs
  | cons x rest ih =>
    intro l' h s hs
    simp only [prune_spws] at h
    cases hx : spw_dropped unit remove bad x with
    | error e => rw [hx] at h; exact absurd h (by simp)
    | ok bf =>
      rw [hx] at h
      cases hr : prune_spws unit remove bad rest with
      | error e => rw [hr] at h; exact absurd h (by simp)
      | ok rest' =>
        rw [hr] at h
        simp only [Except.ok.injEq] at h
        cases bf with
        | true => subst h; exact ih rest' hr s (by simpa using hs)
        | false =>
          subst h
          rcases List.mem_cons.mp hs with rfl | hmem
          · exact hx
          · exact ih rest' hr s hmem

/-- A successful `bad_encompassed` hit is exactly the existence of a
containing bad range (assuming every bad range parses). -/
theorem bad_encompassed_iff (bad : List Str) (low high : ℚ)
    (hb : ∀ f ∈ bad, ∃ b, get_spw_bounds (spwPfx ++ f) = .ok (some b)) :
    bad_encompassed bad low high = .ok true
      ↔ ∃ f ∈ bad, ∃ b, get_spw_bounds (spwPfx ++ f) = .ok (some b)
          ∧ b.low ≤ low ∧ high ≤ b.high := by
  induction bad with
  | nil => simp [bad_encompassed]
  | cons f fs ih =>
    obtain ⟨b, hbf⟩ := hb f (List.mem_cons_self f fs)
    have ihr := ih fun x hx => hb x (List.mem_cons_of_mem _ hx)
    by_cases hc : b.low ≤ low ∧ high ≤ b.high
    · simp only [bad_encompassed, hbf]
      rw [if_pos hc]
      simp only [true_iff]
      exact ⟨f, List.mem_cons_self f fs, b, hbf, hc⟩
    · simp only [bad_encompassed, hbf]
      rw [if_neg hc]
      rw [ihr]
      constructor
      · rintro ⟨g, hg, c, hgc, hcc⟩
        exact ⟨g, List.mem_cons_of_mem _ hg, c, hgc, hcc⟩
      · rintro ⟨g, hg, c, hgc, hcc⟩
        rcases List.mem_cons.mp hg with rfl | hg'
        · rw [hbf] at hgc
          simp only [Except.ok.injEq, Option.some.injEq] at hgc
          exact absurd (hgc ▸ hcc) hc
        · exact ⟨g, hg', c, hgc, hcc⟩

/-- Closed form of the sub-range bounds in the fractional case: with
`func = float` the splitting is exact, and sub-range `i` is
`[low + i*w, low + (i+1)*w]` for the equal width `w = (high-low)/nspw`. -/
theorem sub_range_vals_fkind (low high : ℚ) (n : ℕ) (h2 : 2 ≤ n) :
    sub_range_vals low high .fkind n
      = (List.range n).map fun i : ℕ =>
          (low + (i : ℚ) * ((high - low) / n), low + ((i : ℚ) + 1) * ((high - low) / n)) := by
  have hn0 : (n : ℚ) ≠ 0 := Nat.cast_ne_zero.mpr (by omega)
  have hn2 : (2 : ℚ) ≤ (n : ℚ) := by exact_mod_cast h2
  have hn1 : (n : ℚ) - 1 ≠ 0 := by linarith
  simp only [sub_range_vals, linspace, applyKind]
  rw [List.zip_map', List.map_map]
  apply List.ext_getElem
  · simp
  · intro i hi1 hi2
    simp only [List.getElem_map, List.getElem_range, Function.comp]
    refine Prod.ext ?_ ?_ <;> · simp only; field_simp; ring

/-- Length of a `k`-fold list repetition. -/
theorem length_flatten_replicate {α : Type} (n : ℕ) (l : List α) :
    ((List.replicate n l).flatten).length = n * l.length := by
  induction n with
  | zero => simp
  | succ m ih => simp [List.replicate_succ, ih, Nat.succ_mul, Nat.add_comm]

/-- Splitting after appending a separator-free piece plus the separator:
the piece is emitted and splitting continues. -/
theorem pySplitAux_append (sep : Char) (s : Str) :
    ∀ (rest acc : Str), sep ∉ s →
      pySplitAux sep (s ++ sep :: rest) acc = (acc.reverse ++ s) :: pySplitAux sep rest [] := by
  induction s with
  | nil => intro rest acc _; simp [pySplitAux]
  | cons c cs ih =>
    intro rest acc hs
    have hc : ¬ c = sep := fun hcc => hs (by simp [hcc])
    have hcs : sep ∉ cs := fun hm => hs (List.mem_cons_of_mem _ hm)
    simp only [List.cons_append, pySplitAux, if_neg hc, List.append_eq]
    rw [ih rest (c :: acc) hcs]
    simp

/-- Splitting a separator-free string yields the single piece. -/
theorem pySplitAux_no_sep (sep : Char) (s : Str) :
    ∀ (acc : Str), sep ∉ s → pySplitAux sep s acc = [acc.reverse ++ s] := by
  induction s with
  | nil => intro acc _; simp [pySplitAux]
  | cons c cs ih =>
    intro acc hs
    have hc : ¬ c = sep := fun hcc => hs (by simp [hcc])
    have hcs : sep ∉ cs := fun hm => hs (List.mem_cons_of_mem _ hm)
    simp only [pySplitAux, if_neg hc]
    rw [ih (c :: acc) hcs]
    simp

/-- Splitting is a left inverse of joining on nonempty lists of separator-free
pieces. -/
theorem pySplit_pyJoin (sep : Char) (l : List Str) (hne : l ≠ [])
    (hl : ∀ s ∈ l, sep ∉ s) :
    pySplit sep (pyJoin sep l) = l := by
  induction l with
  | nil => exact absurd rfl hne
  | cons s rest ih =>
    cases rest with
    | nil =>
      simp only [pyJoin, pySplit]
      rw [pySplitAux_no_sep sep s [] (hl s (List.mem_cons_self s []))]
      simp
    | cons t ts =>
      simp only [pyJoin, pySplit]
      rw [pySplitAux_append sep s _ [] (hl s (List.mem_cons_self s _))]
      simp only [List.reverse_nil, List.nil_append, List.cons.injEq, true_and]
      have := ih (by simp) fun x hx => hl x (List.mem_cons_of_mem _ hx)
      simpa [pySplit] using this

/-- Joining at least two pieces always contains the separator. -/
theorem pyJoin_contains (sep : Char) (l : List Str) (h2 : 2 ≤ l.length) :
    (pyJoin sep l).contains sep = true := by
  match l, h2 with
  | s :: t :: ts, _ =>
    show (s ++ sep :: pyJoin sep (t :: ts)).contains sep = true
    simp

/-- A string containing a comma fails the structural shape check of
`get_spw_bounds`. -/
theorem get_spw_bounds_comma (spw : Str) (h : spw.contains ',' = true) :
    get_spw_bounds spw = .ok none := by
  simp only [get_spw_bounds]
  rw [if_neg (by rintro ⟨h1, -⟩; rw [h] at h1; cases h1)]

/-- The submission at position `i` of the `write_master` chain. -/
theorem write_master_chain_get (hasDeps hasSec : Bool) (loop nloops : ℤ) (scripts0 : List Str)
    (i : ℕ) (h : i < (write_master_chain hasDeps hasSec loop nloops scripts0).length) :
    (write_master_chain hasDeps hasSec loop nloops scripts0).get ⟨i, h⟩
      = master_sub hasDeps (selfcal_unroll hasSec loop nloops scripts0) i := by
  simp only [write_master_chain, List.get_eq_getElem, List.getElem_map, List.getElem_range]

/-- The submission at position `i` of the `write_spw_master` chain: a precal
submission, a per-SPW pipeline invocation, or a postcal submission according
to the position. -/
theorem write_spw_master_chain_get (hasDeps hasSec : Bool) (loop nloops : ℤ)
    (precal postcal0 : List Str) (nspw i : ℕ)
    (h : i < (write_spw_master_chain hasDeps hasSec loop nloops precal postcal0 nspw).length) :
    (write_spw_master_chain hasDeps hasSec loop nloops precal postcal0 nspw).get ⟨i, h⟩
      = if i < precal.length then precal_sub hasDeps precal i
        else if i < precal.length + nspw then spw_sub hasDeps precal (i - precal.length)
        else postcal_sub precal (selfcal_unroll hasSec loop nloops postcal0) nspw
               (i - precal.length - nspw) := by
  have hlen := h
  simp only [write_spw_master_chain, List.length_append, List.length_map, List.length_range] at hlen
  simp only [write_spw_master_chain, List.get_eq_getElem]
  by_cases h1 : i < precal.length
  · have hab : i < (((List.range precal.length).map (precal_sub hasDeps precal))
        ++ (List.range nspw).map (spw_sub hasDeps precal)).length := by
      simp only [List.length_append, List.length_map, List.length_range]; omega
    rw [List.getElem_append_left hab, List.getElem_append_left (by
      simp only [List.length_map, List.length_range]; omega)]
    rw [if_pos h1]
    simp only [List.getElem_map, List.getElem_range]
  · by_cases h2 : i < precal.length + nspw
    · have hab : i < (((List.range precal.length).map (precal_sub hasDeps precal))
          ++ (List.range nspw).map (spw_sub hasDeps precal)).length := by
        simp only [List.length_append, List.length_map, List.length_range]; omega
      rw [List.getElem_append_left hab, List.getElem_append_right (by
        simp only [List.length_map, List.length_range]; omega)]
      rw [if_neg h1, if_pos h2]
      simp only [List.getElem_map, List.getElem_range, List.length_map, List.length_range]
    · rw [List.getElem_append_right (by
        simp only [List.length_append, List.length_map, List.length_range]; omega)]
      rw [if_neg h1, if_neg h2]
      simp only [List.getElem_map, List.getElem_range, List.length_append,
        List.length_map, List.length_range]
      congr 1
      omega

/-- If `a` occurs in `l`, `indexOf` stays in bounds. -/
theorem indexOf_lt_length_of_mem {α : Type} [BEq α] [LawfulBEq α] {a : α} {l : List α}
    (h : a ∈ l) : l.indexOf a < l.length :=
  List.findIdx_lt_length_of_exists ⟨a, h, by simp⟩

/-- The element at `indexOf a` is `a` itself. -/
theorem getElem_indexOf_self {α : Type} [BEq α] [LawfulBEq α] {a : α} {l : List α}
    (h : l.indexOf a < l.length) : l.get ⟨l.indexOf a, h⟩ = a := by
  have hfi := @List.findIdx_getElem _ (· == a) l h
  simpa using hfi

/-! ## Claim theorems -/

/-- Claim C7: for every sbatch file written, `cpus-per-task` defaults to 1
and is set to `floor(CPUS_PER_NODE_LIMIT / tasks)` when the script name
matches an image-synthesis (`tclean`/`image`), self-calibration (`selfcal`)
or data-repartitioning (`partition`) pattern; for a `partition` script, if
polarization is enabled and `4*tasks < CPUS_PER_NODE_LIMIT` the value is
forced to 4, and if polarization is disabled and the computed value exceeds
2 it is capped at 2 (otherwise the computed value stands).  The hypothesis
`0 < tasks` reflects that `tasks` is a validated SLURM parameter (Python
would raise `ZeroDivisionError` at 0). -/
theorem claim_C7_thm (script : Str) (tasks : ℕ) (dopol : Bool) (ht : 0 < tasks) :
    ((strIn (str "tclean") script || strIn (str "selfcal") script
        || strIn (str "partition") script || strIn (str "image") script) = false →
      cpus_per_task script tasks dopol = 1)
  ∧ ((strIn (str "tclean") script || strIn (str "selfcal") script
        || strIn (str "partition") script || strIn (str "image") script) = true →
      strIn (str "partition") script = false →
      cpus_per_task script tasks dopol = CPUS_PER_NODE_LIMIT / tasks)
  ∧ (strIn (str "partition") script = true → dopol = true →
      4 * tasks < CPUS_PER_NODE_LIMIT →
      cpus_per_task script tasks dopol = 4)
  ∧ (strIn (str "partition") script = true → dopol = false →
      2 < CPUS_PER_NODE_LIMIT / tasks →
      cpus_per_task script tasks dopol = 2)
  ∧ (strIn (str "partition") script = true → dopol = false →
      CPUS_PER_NODE_LIMIT / tasks ≤ 2 →
      cpus_per_task script tasks dopol = CPUS_PER_NODE_LIMIT / tasks)
  ∧ (strIn (str "partition") script = true → dopol = true →
      CPUS_PER_NODE_LIMIT ≤ 4 * tasks →
      cpus_per_task script tasks dopol = CPUS_PER_NODE_LIMIT / tasks) := by
  refine ⟨?_, ?_, ?_, ?_, ?_, ?_⟩
  · intro h
    rw [Bool.or_eq_false_iff, Bool.or_eq_false_iff, Bool.or_eq_false_iff] at h
    obtain ⟨⟨⟨h1, h2⟩, h3⟩, h4⟩ := h
    simp [cpus_per_task, h1, h2, h3, h4]
  · intro h hp
    rw [hp] at h
    simp only [Bool.or_false] at h
    simp [cpus_per_task, hp, h]
  · intro hp hd hlt
    simp [cpus_per_task, hp, hd, hlt]
  · intro hp hd hgt
    simp [cpus_per_task, hp, hd, hgt]
  · intro hp hd hle
    have hn : ¬ 2 < CPUS_PER_NODE_LIMIT / tasks := Nat.not_lt.mpr hle
    simp [cpus_per_task, hp, hd, hn]
  · intro hp hd hge
    have hn : ¬ 4 * tasks < CPUS_PER_NODE_LIMIT := Nat.not_lt.mpr hge
    simp [cpus_per_task, hp, hd, hn]

/-- Witness for claim C7 at the repartitioning stage with 3 tasks per node
and polarization enabled: `cpus-per-task` is forced to 4. -/
theorem claim_C7_witness : cpus_per_task (str "partition.py") 3 true = 4 :=
  (claim_C7_thm (str "partition.py") 3 true (by decide)).2.2.1 (by decide) rfl (by decide)

/-- Counterexample to claim C8: the range spec `*:abc~123MHz` is neither a
numeric low~high range nor a comma-separated list, yet `spw_split` does not
return 1 with a warning: `int('abc')` raises an uncaught `ValueError`
(the structural shape check of `get_spw_bounds` passes, only the numeric
conversion fails). -/
theorem claim_C8_counterexample :
    spw_split (str "*:abc~123MHz") 4 [] true = .error .valueError := by decide

/-- Claim C8 (amended): for every range spec on which the bounds parser
returns `None` (the structural shape check fails) and which contains no
comma, `spw_split` returns a resolved count of 1 without raising and
without overwriting the config or creating any partition directory.
Range specs that pass the structural check but hold non-numeric bounds
raise instead (see the counterexample). -/
theorem claim_C8_thm (spw : Str) (nspw : ℕ) (bad : List Str) (remove : Bool)
    (h1 : get_spw_bounds spw = .ok none) (h2 : spw.contains ',' = false) :
    spw_split spw nspw bad remove = .ok ⟨1, [], false, []⟩ := by
  have hmem : ',' ∉ spw := by simpa using h2
  simp [spw_split, h1, hmem]

/-- Witness for claim C8: a range spec with no colon falls through to the
`return 1` branch. -/
theorem claim_C8_witness : spw_split (str "900-1670") 3 [] true = .ok ⟨1, [], false, []⟩ :=
  claim_C8_thm (str "900-1670") 3 [] true (by decide) (by decide)

/-- Claim C10: with resolved `nspw = 1` and an empty script list,
`format_args` logs the nothing-to-do error but does not abort (the
`sys.exit(1)` call is commented out), and `write_master` then raises an
uncaught `IndexError` at `scripts[0]` after the master script file has
already been created and partially written (shebang, optional verbose echo,
and the `cp` line precede the failing subscript). -/
theorem claim_C10_thm (verbose : Bool) (config : Str) (hasDeps hasSec : Bool)
    (loop nloops : ℤ) :
    format_args_nothing_to_do [] 1 = (true, false)
  ∧ (write_master_emit verbose config hasDeps hasSec loop nloops []).2 = some .indexError
  ∧ (write_master_emit verbose config hasDeps hasSec loop nloops []).1 ≠ [] := by
  refine ⟨by decide, ?_, ?_⟩
  · simp [write_master_emit, selfcal_unroll]
  · simp [write_master_emit, selfcal_unroll]

/-- Counterexample to claim C2: with `nloops = 4`, `loop = 1` and the
apply-model/re-image pair adjacent, the unrolled sequence holds 4 copies of
`selfcal_part1.sbatch` and 3 of `selfcal_part2.sbatch`
(`selfcal_loops = nloops - loop = 3`; the splice adds
`(pair) * (selfcal_loops - 1)` plus a trailing part1 to the original pair),
not the 3 and 2 the claim states. -/
theorem claim_C2_counterexample :
    (selfcal_unroll true 1 4 [sp1, sp2]).count sp1 = 4
  ∧ (selfcal_unroll true 1 4 [sp1, sp2]).count sp2 = 3
  ∧ selfcal_unroll true 1 4 [sp1, sp2] = [sp1, sp2, sp1, sp2, sp1, sp2, sp1] := by decide

/-- Claim C2 (amended): with selfcal `nloops = 4`, starting `loop = 1`, and
a script list holding exactly one apply-model and one re-image stage with
the re-image stage directly after the apply-model stage, the emitted
sequence holds exactly 4 apply-model and 3 re-image stages, in strictly
alternating order ending with a solitary apply-model stage. -/
theorem claim_C2_thm (scripts : List Str)
    (h1 : scripts.count sp1 = 1) (h2 : scripts.count sp2 = 1)
    (hadj : scripts.indexOf sp2 = scripts.indexOf sp1 + 1) :
    selfcal_unroll true 1 4 scripts
      = scripts.take (scripts.indexOf sp1) ++ [sp1, sp2, sp1, sp2, sp1, sp2, sp1]
        ++ scripts.drop (scripts.indexOf sp2 + 1)
    ∧ (selfcal_unroll true 1 4 scripts).count sp1 = 4
    ∧ (selfcal_unroll true 1 4 scripts).count sp2 = 3 := by
  have hm1 : sp1 ∈ scripts := List.count_pos_iff.mp (by omega)
  have hm2 : sp2 ∈ scripts := List.count_pos_iff.mp (by omega)
  have hc1 : scripts.contains sp1 = true := by simpa using hm1
  have hc2 : scripts.contains sp2 = true := by simpa using hm2
  have hi1 : scripts.indexOf sp1 < scripts.length := indexOf_lt_length_of_mem hm1
  have hi2 : scripts.indexOf sp2 < scripts.length := indexOf_lt_length_of_mem hm2
  have hg1 : scripts[scripts.indexOf sp1] = sp1 := getElem_indexOf_self hi1
  have hg2 : scripts[scripts.indexOf sp2] = sp2 := getElem_indexOf_self hi2
  have htake : scripts.take (scripts.indexOf sp2 + 1)
      = scripts.take (scripts.indexOf sp1) ++ [sp1, sp2] := by
    rw [hadj, List.take_succ, List.take_succ]
    have e1 : scripts[scripts.indexOf sp1]? = some sp1 := by
      rw [List.getElem?_eq_getElem hi1, hg1]
    have e2 : scripts[scripts.indexOf sp1 + 1]? = some sp2 := by
      rw [← hadj, List.getElem?_eq_getElem hi2, hg2]
    rw [e1, e2]
    simp
  have hmul : pyListMul [sp1, sp2] (4 - 1 - 1 : ℤ) = [sp1, sp2, sp1, sp2] := by decide
  have hresult : selfcal_unroll true 1 4 scripts
      = scripts.take (scripts.indexOf sp2 + 1) ++ pyListMul [sp1, sp2] (4 - 1 - 1 : ℤ)
        ++ [sp1] ++ scripts.drop (scripts.indexOf sp2 + 1) := by
    simp only [selfcal_unroll, hc1, hc2, Bool.and_self, Bool.true_and, Bool.and_true,
      if_pos hadj]
    simp [hadj]
  have hsplit : selfcal_unroll true 1 4 scripts
      = scripts.take (scripts.indexOf sp1) ++ [sp1, sp2, sp1, sp2, sp1, sp2, sp1]
        ++ scripts.drop (scripts.indexOf sp2 + 1) := by
    rw [hresult, htake, hmul]
    simp
  refine ⟨hsplit, ?_, ?_⟩
  · have hwhole : (scripts.take (scripts.indexOf sp2 + 1)).count sp1
        + (scripts.drop (scripts.indexOf sp2 + 1)).count sp1 = 1 := by
      rw [← List.count_append, List.take_append_drop]
      exact h1
    rw [htake] at hwhole
    simp only [List.count_append] at hwhole
    have hseg : ([sp1, sp2] : List Str).count sp1 = 1 := by decide
    rw [hseg] at hwhole
    rw [hsplit]
    simp only [List.count_append]
    have hseg7 : ([sp1, sp2, sp1, sp2, sp1, sp2, sp1] : List Str).count sp1 = 4 := by decide
    rw [hseg7]
    omega
  · have hwhole : (scripts.take (scripts.indexOf sp2 + 1)).count sp2
        + (scripts.drop (scripts.indexOf sp2 + 1)).count sp2 = 1 := by
      rw [← List.count_append, List.take_append_drop]
      exact h2
    rw [htake] at hwhole
    simp only [List.count_append] at hwhole
    have hseg : ([sp1, sp2] : List Str).count sp2 = 1 := by decide
    rw [hseg] at hwhole
    rw [hsplit]
    simp only [List.count_append]
    have hseg7 : ([sp1, sp2, sp1, sp2, sp1, sp2, sp1] : List Str).count sp2 = 3 := by decide
    rw [hseg7]
    omega

/-- Witness for claim C2 on a postcal list with surrounding stages. -/
theorem claim_C2_witness :
    (selfcal_unroll true 1 4 [str "concat.sbatch", sp1, sp2, str "science_image.sbatch"]).count sp1 = 4 :=
  (claim_C2_thm [str "concat.sbatch", sp1, sp2, str "science_image.sbatch"]
    (by decide) (by decide) (by decide)).2.1

/-- Counterexample to claim C3: in `[re-image, apply-model, re-image]` the
apply-model stage is immediately followed by a re-image stage (positions 1
and 2), and the loop configuration (`loop = 1 < nloops = 4`) asks for
unrolling, yet the builder passes the list through unchanged (length 3, not
the spliced length 8) because its adjacency test compares the *first*
occurrences only (`scripts.index` in Python). -/
theorem claim_C3_counterexample :
    selfcal_unroll true 1 4 [sp2, sp1, sp2] = [sp2, sp1, sp2]
  ∧ (selfcal_unroll true 1 4 [sp2, sp1, sp2]).length = 3 := by decide

/-- Claim C3 (amended): when the *first* occurrence of the re-image stage is
directly after the *first* occurrence of the apply-model stage (and the
selfcal section exists), the builder splices `(nloops - loop - 1)` extra
copies of the pair plus one trailing apply-model stage directly after that
occurrence, leaving the remaining stages in place; in every other
configuration (no section, a stage missing, or first occurrences not
adjacent in that order) the list passes through unchanged. -/
theorem claim_C3_thm (hasSec : Bool) (loop nloops : ℤ) (scripts : List Str)
    (hl : loop < nloops) :
    (hasSec = true → sp1 ∈ scripts → sp2 ∈ scripts →
      scripts.indexOf sp2 = scripts.indexOf sp1 + 1 →
      selfcal_unroll hasSec loop nloops scripts
        = scripts.take (scripts.indexOf sp2 + 1)
          ++ pyListMul [sp1, sp2] (nloops - loop - 1) ++ [sp1]
          ++ scripts.drop (scripts.indexOf sp2 + 1)
      ∧ (pyListMul [sp1, sp2] (nloops - loop - 1)).length
          = 2 * (nloops - loop - 1).toNat)
  ∧ ((hasSec = false ∨ sp1 ∉ scripts ∨ sp2 ∉ scripts
        ∨ scripts.indexOf sp2 ≠ scripts.indexOf sp1 + 1) →
      selfcal_unroll hasSec loop nloops scripts = scripts) := by
  constructor
  · rintro rfl hm1 hm2 hadj
    have hc1 : scripts.contains sp1 = true := by simpa using hm1
    have hc2 : scripts.contains sp2 = true := by simpa using hm2
    constructor
    · simp only [selfcal_unroll, hc1, hc2, Bool.and_self, Bool.true_and, Bool.and_true,
        if_pos hadj]
      simp [hadj]
    · simp [pyListMul, length_flatten_replicate, Nat.mul_comm]
  · intro hcase
    rcases hcase with rfl | hno1 | hno2 | hne
    · simp [selfcal_unroll]
    · have hc : scripts.contains sp1 = false := by simpa using hno1
      simp only [selfcal_unroll, hc, Bool.and_false, Bool.false_and, Bool.false_eq_true,
        if_false]
    · have hc : scripts.contains sp2 = false := by simpa using hno2
      simp only [selfcal_unroll, hc, Bool.and_false, Bool.false_and, Bool.false_eq_true,
        if_false]
    · cases hb : (hasSec && scripts.contains sp1 && scripts.contains sp2) with
      | false => simp only [selfcal_unroll, hb, Bool.false_eq_true, if_false]
      | true => simp only [selfcal_unroll, hb, if_true, if_neg hne]

/-- Witness for claim C3 on the adjacent pair with `loop = 1`, `nloops = 4`. -/
theorem claim_C3_witness :
    selfcal_unroll true 1 4 [sp1, sp2]
      = [sp1, sp2].take ([sp1, sp2].indexOf sp2 + 1)
        ++ pyListMul [sp1, sp2] (4 - 1 - 1) ++ [sp1]
        ++ [sp1, sp2].drop ([sp1, sp2].indexOf sp2 + 1) :=
  ((claim_C3_thm true 1 4 [sp1, sp2] (by decide)).1 rfl (by decide) (by decide) (by decide)).1

/-- Counterexample to claim C6: with `nspw = 1`, non-empty precal, and
`calc_refant.py` present in both the precal and core lists, the final stage
sequence is not `precal ++ core ++ postcal`: the precal copy of
`calc_refant.py` is dropped first (format_args lines 1234-1236). -/
theorem claim_C6_counterexample :
    format_args_scripts 1 [crefant, str "partition.py"] [str "flag_round_1.py", crefant] []
      = ([str "partition.py", str "flag_round_1.py", crefant], [], [])
  ∧ ([crefant, str "partition.py"] ++ [str "flag_round_1.py", crefant] ++ ([] : List Str)
      ≠ [str "partition.py", str "flag_round_1.py", crefant]) := by decide

/-- Claim C6 (amended): whenever `nspw = 1` and the precal or postcal list
is non-empty, the planned stage sequence is `precal' ++ core ++ postcal`
where `precal'` is precal with its first `calc_refant.py` dropped when that
script occurs in both the precal and core lists; the config's precal and
postcal entries are emptied; no emitted sbatch file is an array job; and
the master script is one linear chain in which every submission after the
first depends (`afterok`) on all previously captured IDs. -/
theorem claim_C6_thm (precal core postcal : List Str) (h : precal ≠ [] ∨ postcal ≠ []) :
    format_args_scripts 1 precal core postcal
      = ((if precal.contains crefant && core.contains crefant
            then precal.erase crefant else precal) ++ core ++ postcal, [], [])
  ∧ (∀ script SPWs nspw, nspw = 1 → sbatch_is_array script SPWs nspw = false)
  ∧ (∀ (hasDeps hasSec : Bool) (loop nloops : ℤ) (i : ℕ)
        (hi : i < (write_master_chain hasDeps hasSec loop nloops
          (format_args_scripts 1 precal core postcal).1).length),
      0 < i →
      ((write_master_chain hasDeps hasSec loop nloops
          (format_args_scripts 1 precal core postcal).1).get ⟨i, hi⟩).dep
        = Dep.afterok (List.range i)) := by
  have hne : (precal.isEmpty && postcal.isEmpty) = false := by
    rcases h with h | h
    · cases hp : precal.isEmpty
      · simp
      · exact absurd (List.isEmpty_iff.mp hp) h
    · cases hp : postcal.isEmpty
      · simp
      · exact absurd (List.isEmpty_iff.mp hp) h
  refine ⟨?_, ?_, ?_⟩
  · simp [format_args_scripts, hne]
  · intro script SPWs nspw hn
    subst hn
    simp [sbatch_is_array]
  · intro hasDeps hasSec loop nloops i hi hpos
    rw [write_master_chain_get]
    simp [master_sub, Nat.pos_iff_ne_zero.mp hpos]

/-- Witness for claim C6 with the default-style precal/core overlap. -/
theorem claim_C6_witness :
    format_args_scripts 1 [crefant, str "partition.py"] [crefant] [str "concat.sbatch"]
      = ((if ([crefant, str "partition.py"] : List Str).contains crefant
              && ([crefant] : List Str).contains crefant
            then ([crefant, str "partition.py"] : List Str).erase crefant
            else [crefant, str "partition.py"])
          ++ [crefant] ++ [str "concat.sbatch"], [], []) :=
  (claim_C6_thm [crefant, str "partition.py"] [crefant] [str "concat.sbatch"]
    (Or.inl (by decide))).1

/-- Counterexample to claim C1: `*:900~1670MHz` parses with the integer
conversion function (no decimal point in the bounds), so the sub-range
bounds are truncated: splitting into 4 yields `900~1092`, `1092~1284`,
`1285~1477`, `1478~1670` — not the claimed `900~1092.5`, `1092.5~1285`,
`1285~1477.5`, `1477.5~1670` — and a gap opens between 1284 and 1285. -/
theorem claim_C1_counterexample :
    get_spw_bounds (str "*:900~1670MHz") = .ok (some ⟨900, 1670, mhz, .ikind⟩)
  ∧ sub_range_vals 900 1670 .ikind 4 = [(900, 1092), (1092, 1284), (1285, 1477), (1478, 1670)]
  ∧ sub_range_vals 900 1670 .ikind 4
      ≠ [(900, 2185/2), (2185/2, 1285), (1285, 2955/2), (2955/2, 1670)]
  ∧ spw_split (str "*:900~1670MHz") 4 [] true
      = .ok ⟨4, [str "*:900~1092MHz", str "*:1092~1284MHz", str "*:1285~1477MHz",
                 str "*:1478~1670MHz"], true,
             [str "900~1092MHz", str "1092~1284MHz", str "1285~1477MHz",
              str "1478~1670MHz"]⟩ := by
  decide

/-- Claim C1 (amended): when the bounds parse with the fractional (`float`)
conversion — i.e. the high bound holds a decimal point and the unit is
non-empty — the splitting is exact: `nspw` sub-ranges of equal width
`(high-low)/nspw`, the `i`-th being `[low + i*w, low + (i+1)*w]`, with the
first low equal to `low`, the last high equal to `high`, adjacent
boundaries meeting with no gap or overlap, and boundaries monotonically
increasing.  With the integer conversion (no decimal point, as in
`*:900~1670MHz`) bounds truncate and gaps can appear (see the
counterexample). -/
theorem claim_C1_thm (low high : ℚ) (nspw : ℕ) (h2 : 2 ≤ nspw) (hle : low ≤ high) :
    (sub_range_vals low high .fkind nspw).length = nspw
  ∧ (∀ i, i < nspw → (sub_range_vals low high .fkind nspw).getD i (0, 0)
      = (low + (i : ℚ) * ((high - low) / nspw), low + ((i : ℚ) + 1) * ((high - low) / nspw)))
  ∧ ((sub_range_vals low high .fkind nspw).getD 0 (0, 0)).1 = low
  ∧ ((sub_range_vals low high .fkind nspw).getLastD (0, 0)).2 = high
  ∧ (∀ i, i + 1 < nspw →
      ((sub_range_vals low high .fkind nspw).getD i (0, 0)).2
        = ((sub_range_vals low high .fkind nspw).getD (i + 1) (0, 0)).1)
  ∧ (∀ i, i < nspw →
      ((sub_range_vals low high .fkind nspw).getD i (0, 0)).1
        ≤ ((sub_range_vals low high .fkind nspw).getD i (0, 0)).2) := by
  have key := sub_range_vals_fkind low high nspw h2
  have hn0 : (nspw : ℚ) ≠ 0 := Nat.cast_ne_zero.mpr (by omega)
  have hw : 0 ≤ (high - low) / (nspw : ℚ) := by
    apply div_nonneg (by linarith)
    exact_mod_cast Nat.zero_le nspw
  have hgetD : ∀ i, i < nspw → (sub_range_vals low high .fkind nspw).getD i (0, 0)
      = (low + (i : ℚ) * ((high - low) / nspw), low + ((i : ℚ) + 1) * ((high - low) / nspw)) := by
    intro i hi
    rw [key, getD_range_map _ _ _ _ hi]
  refine ⟨by rw [key]; simp, hgetD, ?_, ?_, ?_, ?_⟩
  · rw [hgetD 0 (by omega)]
    simp
  · have hlen2 : (sub_range_vals low high .fkind nspw).length = nspw := by rw [key]; simp
    rw [List.getLastD_eq_getLast?, List.getLast?_eq_getElem?, hlen2,
      ← List.getD_eq_getElem?_getD, hgetD (nspw - 1) (by omega)]
    have hcast : ((nspw - 1 : ℕ) : ℚ) + 1 = (nspw : ℚ) := by
      have h1 : (1 : ℕ) ≤ nspw := by omega
      push_cast [Nat.cast_sub h1]
      ring
    simp only
    rw [hcast]
    field_simp
  · intro i hi
    rw [hgetD i (by omega), hgetD (i + 1) (by omega)]
    push_cast
    ring_nf
  · intro i hi
    rw [hgetD i hi]
    have : (i : ℚ) ≤ (i : ℚ) + 1 := by linarith
    nlinarith [mul_le_mul_of_nonneg_right this hw]

/-- Witness for claim C1 at `900~1670` MHz split into 4 with the fractional
conversion: the first sub-range starts at 900 and spans one quarter of the
band. -/
theorem claim_C1_witness :
    (sub_range_vals 900 1670 .fkind 4).getD 0 (0, 0)
      = (900 + ((0 : ℕ) : ℚ) * ((1670 - 900) / 4), 900 + (((0 : ℕ) : ℚ) + 1) * ((1670 - 900) / 4)) :=
  (claim_C1_thm 900 1670 4 (by norm_num) (by norm_num)).2.1 0 (by norm_num)

/-- The elements rejected and accepted by a Boolean predicate partition the
list's length. -/
theorem countP_not_add {α : Type} (p : α → Bool) (l : List α) :
    l.countP (fun a => !p a) + l.countP p = l.length := by
  induction l with
  | nil => rfl
  | cons a t ih => cases h : p a <;> simp [List.countP_cons, h] <;> omega

/-- The Boolean projection `droppedB` is `true` exactly on an `ok true` drop decision. -/
theorem droppedB_eq_true_iff (unit : Str) (remove : Bool) (bad : List Str) (s : Str) :
    droppedB unit remove bad s = true ↔ spw_dropped unit remove bad s = .ok true := by
  unfold droppedB
  cases h : spw_dropped unit remove bad s with
  | error e => simp
  | ok t => cases t <;> simp

/-- Counterexample to claim C4: splitting `*:900~1670MHz` into 4 with
`badfreqranges = [1092.5~1285MHz]` resolves to 4 partitions with nothing
dropped, not 3: the integer-truncated sub-ranges are `900~1092`,
`1092~1284`, `1285~1477`, `1478~1670`, and none of them is contained in
`[1092.5, 1285]` (the second starts at 1092 < 1092.5). -/
theorem claim_C4_counterexample :
    spw_split (str "*:900~1670MHz") 4 [str "1092.5~1285MHz"] true
      = .ok ⟨4, [str "*:900~1092MHz", str "*:1092~1284MHz", str "*:1285~1477MHz",
                 str "*:1478~1670MHz"], true,
             [str "900~1092MHz", str "1092~1284MHz", str "1285~1477MHz",
              str "1478~1670MHz"]⟩ := by decide

/-- Claim C4 (amended): when every sub-range and bad-range string parses,
the pruning loop drops a sub-range exactly when the shared unit is `MHz`
and some bad interval contains it (`low >= badLow && high <= badHigh`,
boundary touches included), and the resolved count shrinks by the number of
dropped sub-ranges.  The claim's scenario is corrected: with
`*:900~1670MHz` (integer conversion) and bad range `1092.5~1285MHz` the
count stays 4 (see the counterexample); the drop to 3 occurs only for
fractional bounds such as `*:900~1670.0MHz`. -/
theorem claim_C4_thm (unit : Str) (bad spws : List Str)
    (hok : ∀ s ∈ spws, isOkB (spw_dropped unit true bad s) = true)
    (hb : ∀ f ∈ bad, okSomeB (get_spw_bounds (spwPfx ++ f)) = true) :
    prune_spws unit true bad spws = .ok (spws.filter fun s => !droppedB unit true bad s)
  ∧ (spws.filter fun s => !droppedB unit true bad s).length
      = spws.length - spws.countP (droppedB unit true bad)
  ∧ (∀ s bs, get_spw_bounds s = .ok (some bs) →
      (droppedB unit true bad s = true
        ↔ unit = mhz ∧ ∃ f ∈ bad, ∃ b, get_spw_bounds (spwPfx ++ f) = .ok (some b)
            ∧ b.low ≤ bs.low ∧ bs.high ≤ b.high)) := by
  have hok' : ∀ s ∈ spws, ∃ t, spw_dropped unit true bad s = .ok t := by
    intro s hs
    have h := hok s hs
    cases he : spw_dropped unit true bad s with
    | ok t => exact ⟨t, rfl⟩
    | error e => rw [he] at h; simp [isOkB] at h
  have hb' : ∀ f ∈ bad, ∃ b, get_spw_bounds (spwPfx ++ f) = .ok (some b) := by
    intro f hf
    have h := hb f hf
    cases he : get_spw_bounds (spwPfx ++ f) with
    | ok ob =>
      cases ob with
      | some b => exact ⟨b, rfl⟩
      | none => rw [he] at h; simp [okSomeB] at h
    | error e => rw [he] at h; simp [okSomeB] at h
  refine ⟨prune_spws_eq_filter unit true bad spws hok', ?_, ?_⟩
  · rw [← List.countP_eq_length_filter]
    have hsum := countP_not_add (droppedB unit true bad) spws
    omega
  · intro s bs hs
    rw [droppedB_eq_true_iff]
    simp only [spw_dropped, hs]
    by_cases hu : unit = mhz
    · rw [if_pos ⟨hu, by trivial⟩, bad_encompassed_iff bad bs.low bs.high hb']
      simp [hu]
    · rw [if_neg fun hcon => hu hcon.1]
      simp only [hu, false_and, iff_false]
      intro hfalse
      exact absurd (Except.ok.inj hfalse) Bool.false_ne_true

/-- Witness for claim C4 at the fractional scenario: the second sub-range
`*:1092.5~1285.0MHz` is exactly the bad interval and is dropped. -/
theorem claim_C4_witness :
    prune_spws mhz true [str "1092.5~1285MHz"]
      [str "*:900.0~1092.5MHz", str "*:1092.5~1285.0MHz", str "*:1285.0~1477.5MHz",
       str "*:1477.5~1670.0MHz"]
      = .ok ([str "*:900.0~1092.5MHz", str "*:1092.5~1285.0MHz", str "*:1285.0~1477.5MHz",
              str "*:1477.5~1670.0MHz"].filter
          fun s => !droppedB mhz true [str "1092.5~1285MHz"] s) :=
  (claim_C4_thm mhz [str "1092.5~1285MHz"]
    [str "*:900.0~1092.5MHz", str "*:1092.5~1285.0MHz", str "*:1285.0~1477.5MHz",
     str "*:1477.5~1670.0MHz"] (by decide) (by decide)).1

/-- Claim C5: in both emitted master scripts every dependency expression
references only job-ID variables captured by submissions at strictly
earlier positions (externally supplied `--dependencies` values are not
captured variables), so the job graph is acyclic by construction.  The
first submission of the script carries no dependency unless an external
dependency list was supplied; every later submission of the `write_master`
chain and of the precal chain depends `afterok` on all previously captured
IDs; the first postcal submission joins on the per-partition chains with
`afterany`; and every later postcal submission depends `afterok` on the
accumulated precal-plus-postcal IDs. -/
theorem claim_C5_thm :
    (∀ (hasDeps hasSec : Bool) (loop nloops : ℤ) (scripts : List Str) (i : ℕ)
        (h : i < (write_master_chain hasDeps hasSec loop nloops scripts).length),
      ∀ j ∈ (((write_master_chain hasDeps hasSec loop nloops scripts).get ⟨i, h⟩).dep).refs,
        j < i)
  ∧ (∀ (hasDeps hasSec : Bool) (loop nloops : ℤ) (precal postcal : List Str) (nspw i : ℕ)
        (h : i < (write_spw_master_chain hasDeps hasSec loop nloops precal postcal nspw).length),
      ∀ j ∈ (((write_spw_master_chain hasDeps hasSec loop nloops precal postcal
            nspw).get ⟨i, h⟩).dep).refs,
        j < i)
  ∧ (∀ (scripts : List Str), (master_sub false scripts 0).dep = .nodep)
  ∧ (∀ (scripts : List Str), (master_sub true scripts 0).dep = .afterokExt)
  ∧ (∀ (hasDeps : Bool) (scripts : List Str) (i : ℕ), 0 < i →
      (master_sub hasDeps scripts i).dep = .afterok (List.range i))
  ∧ (∀ (precal : List Str), (precal_sub false precal 0).dep = .nodep)
  ∧ (∀ (precal : List Str), (precal_sub true precal 0).dep = .afterokExt)
  ∧ (∀ (hasDeps : Bool) (precal : List Str) (i : ℕ), 0 < i →
      (precal_sub hasDeps precal i).dep = .afterok (List.range i))
  ∧ (∀ (precal postcal : List Str) (nspw : ℕ),
      (postcal_sub precal postcal nspw 0).dep
        = .afterany ((List.range nspw).map (precal.length + ·)))
  ∧ (∀ (precal postcal : List Str) (nspw j : ℕ), 0 < j →
      (postcal_sub precal postcal nspw j).dep
        = .afterok (List.range precal.length
            ++ (List.range j).map fun t => precal.length + nspw + t)) := by
  refine ⟨?_, ?_, fun _ => rfl, fun _ => rfl, ?_, fun _ => rfl, fun _ => rfl, ?_, ?_, ?_⟩
  · intro hasDeps hasSec loop nloops scripts i h j hj
    rw [write_master_chain_get] at hj
    by_cases hi : i = 0
    · subst hi
      cases hasDeps <;> simp [master_sub, Dep.refs] at hj
    · simp only [master_sub, if_neg hi, Dep.refs] at hj
      exact List.mem_range.mp hj
  · intro hasDeps hasSec loop nloops precal postcal nspw i h j hj
    rw [write_spw_master_chain_get] at hj
    by_cases h1 : i < precal.length
    · rw [if_pos h1] at hj
      by_cases hi : i = 0
      · subst hi
        cases hasDeps <;> simp [precal_sub, Dep.refs] at hj
      · simp only [precal_sub, if_neg hi, Dep.refs] at hj
        exact List.mem_range.mp hj
    · rw [if_neg h1] at hj
      by_cases h2 : i < precal.length + nspw
      · rw [if_pos h2] at hj
        simp only [spw_sub] at hj
        by_cases hpart : (!precal.isEmpty && strIn (str "partition") (precal.getLastD []))
          = true
        · rw [if_pos hpart] at hj
          simp only [Dep.refs, List.mem_singleton] at hj
          have hm : 0 < precal.length := by
            have hne : (!precal.isEmpty) = true := by
              cases hp : (!precal.isEmpty)
              · rw [hp] at hpart; simp at hpart
              · rfl
            cases hp : precal.isEmpty
            · exact List.length_pos_of_ne_nil (by simpa using hp)
            · rw [hp] at hne; simp at hne
          omega
        · rw [if_neg hpart] at hj
          by_cases hm : 0 < precal.length
          · rw [if_pos hm] at hj
            simp only [Dep.refs] at hj
            have := List.mem_range.mp hj
            omega
          · rw [if_neg hm] at hj
            cases hasDeps <;> simp [Dep.refs] at hj
      · rw [if_neg h2] at hj
        simp only [postcal_sub] at hj
        by_cases hz : i - precal.length - nspw = 0
        · rw [if_pos hz] at hj
          simp only [Dep.refs, List.mem_map, List.mem_range] at hj
          obtain ⟨t, ht, rfl⟩ := hj
          omega
        · rw [if_neg hz] at hj
          simp only [Dep.refs, List.mem_append, List.mem_range, List.mem_map] at hj
          rcases hj with hj | ⟨t, ht, rfl⟩
          · omega
          · omega
  · intro hasDeps scripts i hi
    simp [master_sub, Nat.pos_iff_ne_zero.mp hi]
  · intro hasDeps precal i hi
    simp [precal_sub, Nat.pos_iff_ne_zero.mp hi]
  · intro precal postcal nspw
    rfl
  · intro precal postcal nspw j hj
    simp [postcal_sub, Nat.pos_iff_ne_zero.mp hj]

/-- Witness for claim C5: in a two-script master chain the second
submission depends only on the first. -/
theorem claim_C5_witness :
    ∀ j ∈ (((write_master_chain false false 0 0 [str "validate_input.sbatch",
        str "flag_round_1.sbatch"]).get ⟨1, by decide⟩).dep).refs, j < 1 :=
  claim_C5_thm.1 false false 0 0 [str "validate_input.sbatch", str "flag_round_1.sbatch"]
    1 (by decide)

/-- Inversion of a successful `spw_split` run: either the early
`return 1` branch was taken, or the returned count is the length of the
returned survivor list (both pruning branches build the result as
`⟨l.length, l, ...⟩`). -/
theorem spw_split_ok_shape (spw : Str) (nspw : ℕ) (bad : List Str) (remove : Bool)
    (r : SplitResult) (h : spw_split spw nspw bad remove = .ok r) :
    r = ⟨1, [], false, []⟩ ∨ r.nspw = r.spws.length := by
  unfold spw_split at h
  split at h
  · cases h
  · split at h
    · cases h
    · dsimp only [] at h
      split at h
      · cases h
      · right
        rw [← Except.ok.inj h]
  · split at h
    · dsimp only [] at h
      split at h
      · cases h
      · cases h
      · split at h
        · cases h
        · right
          rw [← Except.ok.inj h]
    · left
      exact (Except.ok.inj h).symm

/-- Claim C9: partition pruning is idempotent.  If a planner run resolves
the partitioning to `r` (count `r.nspw`, surviving sub-range list
`r.spws`), and the config is rewritten with `spw` set to the comma-joined
survivors and `nspw` to the resolved count, then a second planner run
yields the same resolved count (and leaves the joined `spw` value
unchanged).  The side conditions record parse facts that hold for the
strings the first run produces: the survivors contain no comma, the first
survivor parses (giving the unit used by the second run's pruning), and no
survivor is dropped under that unit — the latter holds because each
survivor already passed the identical containment test in the first run.
For `r.nspw ≤ 1` the second run skips `spw_split` entirely, so the count
is trivially preserved. -/
theorem claim_C9_thm (spw : Str) (nspw : ℕ) (bad : List Str) (r : SplitResult) (b0 : SpwBounds)
    (hrun : spw_split spw nspw bad true = .ok r)
    (hn2 : 2 ≤ r.nspw)
    (hcomma : ∀ s ∈ r.spws, ',' ∉ s)
    (hhead : get_spw_bounds (r.spws.headD []) = .ok (some b0))
    (hnd : ∀ s ∈ r.spws, spw_dropped b0.unit true bad s = .ok false) :
    format_args_split (pyJoin ',' r.spws) r.nspw bad
      = .ok (r.nspw, pyJoin ',' r.spws) := by
  have hlen : r.nspw = r.spws.length := by
    rcases spw_split_ok_shape spw nspw bad true r hrun with rfl | h
    · simp at hn2
    · exact h
  have hlist2 : 2 ≤ r.spws.length := by omega
  have hne : r.spws ≠ [] := by
    intro h
    rw [h] at hlist2
    simp at hlist2
  have hcontains : (pyJoin ',' r.spws).contains ',' = true :=
    pyJoin_contains ',' r.spws hlist2
  have hbnone : get_spw_bounds (pyJoin ',' r.spws) = .ok none :=
    get_spw_bounds_comma _ hcontains
  have hsplit : pySplit ',' (pyJoin ',' r.spws) = r.spws :=
    pySplit_pyJoin ',' r.spws hne hcomma
  have hok : ∀ s ∈ r.spws, ∃ t, spw_dropped b0.unit true bad s = .ok t :=
    fun s hs => ⟨false, hnd s hs⟩
  have hfilter : (r.spws.filter fun s => !droppedB b0.unit true bad s) = r.spws := by
    apply List.filter_eq_self.mpr
    intro s hs
    rw [droppedB_of_spw_dropped (hnd s hs)]
    rfl
  have hprune : prune_spws b0.unit true bad r.spws = .ok r.spws := by
    rw [prune_spws_eq_filter b0.unit true bad r.spws hok, hfilter]
  have h1lt : 1 < r.nspw := by omega
  simp only [format_args_split, if_pos h1lt]
  simp only [spw_split, hbnone, hcontains, if_true]
  rw [hsplit]
  simp only [hhead, hprune, hlen]
  simp

/-- Witness for claim C9 at the fractional scenario: the first run on
`*:900~1670.0MHz` with bad range `1092.5~1285MHz` resolves to 3 survivors,
and a second run on the rewritten config keeps the count at 3. -/
theorem claim_C9_witness :
    format_args_split
        (pyJoin ',' [str "*:900.0~1092.5MHz", str "*:1285.0~1477.5MHz",
          str "*:1477.5~1670.0MHz"])
        3 [str "1092.5~1285MHz"]
      = .ok (3, pyJoin ',' [str "*:900.0~1092.5MHz", str "*:1285.0~1477.5MHz",
          str "*:1477.5~1670.0MHz"]) :=
  claim_C9_thm (str "*:900~1670.0MHz") 4 [str "1092.5~1285MHz"]
    ⟨3, [str "*:900.0~1092.5MHz", str "*:1285.0~1477.5MHz", str "*:1477.5~1670.0MHz"],
      true, [str "900.0~1092.5MHz", str "1285.0~1477.5MHz", str "1477.5~1670.0MHz"]⟩
    ⟨900, 2185/2, mhz, .fkind⟩
    (by decide) (by decide) (by decide) (by decide) (by decide)

/-- Witness for claim C10 at a concrete config name. -/
theorem claim_C10_witness :
    format_args_nothing_to_do [] 1 = (true, false)
  ∧ (write_master_emit false (str "myconfig.txt") false false 1 4 []).2 = some .indexError
  ∧ (write_master_emit false (str "myconfig.txt") false false 1 4 []).1 ≠ [] :=
  claim_C10_thm false (str "myconfig.txt") false false 1 4
